import Mathlib

/-!
The interceptor server: forwarding gateway and archive ingestion.

A shallow embedding of `server/server.go`.  The handlers `index`, `download`,
`withErrorHandling` and the helpers `getExt` and `unzip` are transcribed from
the Go source.  What the source obtains from the Go standard library and from
the operating system (URL parsing, the HTTP transport, the zip reader, the file
system's verdict on an open, a write or a removal) is not code of the
repository: it enters through the record `Env`, over which every theorem is
universally quantified, or through small models of documented library
behaviour (`Split`, `HasPrefix`, `CanonicalMIMEHeaderKey`, `Header.Set`,
`Header.Get`, and the `ResponseWriter` of the `net/http` server with its check
of a declared `Content-Length`).

Go strings and byte slices are both modelled by `String`, one character per
byte: the character of code `n` stands for the byte `n`, so the length of a
`String` is the Go `len` of the bytes it stands for.  The constants of the
source and the texts of the worked examples are ASCII, where character and byte
coincide.
-/

namespace Interceptor

/-! ## Go strings -/

/-- Go `strings.HasPrefix(s, pre)`. -/
def HasPrefix (s pre : String) : Bool :=
  pre.data.isPrefixOf s.data

/-- The pieces of a character list between occurrences of `sep`. -/
def splitChars (sep : Char) : List Char → List (List Char)
  | [] => [[]]
  | c :: cs =>
    if c = sep then [] :: splitChars sep cs
    else
      match splitChars sep cs with
      | [] => [[c]]
      | h :: t => (c :: h) :: t

/-- Go `strings.Split(s, sep)` for a separator of one byte, the only way the
source calls it (`strings.Split(path, ".")`). -/
def Split (s : String) (sep : Char) : List String :=
  (splitChars sep s.data).map String.mk

/-- Source `getExt`: `split := strings.Split(path, "."); return split[len(split)-1]`.
The index expression is kept partial: `none` stands for the run-time panic of an
index out of range (for an empty `split` the index `len(split)-1` is `-1`, and
`split[0]?` on the empty list is `none` as well). -/
def getExt (path : String) : Option String :=
  let split := Split path '.'
  split[split.length - 1]?

/-! ## HTTP headers -/

/-- Go `textproto.validHeaderFieldByte`: the token characters of RFC 7230, that
is ASCII letters, digits and the fifteen punctuation bytes listed by code. -/
def validHeaderFieldByte (c : Char) : Bool :=
  c.isAlphanum ||
    [33, 35, 36, 37, 38, 39, 42, 43, 45, 46, 94, 95, 96, 124, 126].contains c.toNat

/-- The capitalisation pass of Go `textproto.canonicalMIMEHeaderKey`: upper case
for the first letter and for a letter after a dash, lower case elsewhere. -/
def canonLoop (upper : Bool) : List Char → List Char
  | [] => []
  | c :: cs =>
    let d := if upper && c.isLower then c.toUpper
             else if !upper && c.isUpper then c.toLower else c
    d :: canonLoop (d == '-') cs

/-- Go `textproto.CanonicalMIMEHeaderKey`: a key made of token characters only is
put in canonical form; any other key is returned unchanged. -/
def CanonicalMIMEHeaderKey (s : String) : String :=
  if s.data.all validHeaderFieldByte then String.mk (canonLoop true s.data) else s

/-- Raw access `m[k]` to a Go map, modelled as an association list. -/
def lookup {α : Type} : List (String × α) → String → Option α
  | [], _ => none
  | (k, v) :: m, key => if k = key then some v else lookup m key

/-- Removal of a key from a map (Go `delete(m, k)`). -/
def erase {α : Type} (m : List (String × α)) (key : String) : List (String × α) :=
  m.filter (fun e => decide (e.1 ≠ key))

/-- Assignment `m[k] = v` in a Go map. -/
def put {α : Type} (m : List (String × α)) (key : String) (v : α) : List (String × α) :=
  (key, v) :: erase m key

/-- Go `http.Header`, a `map[string][]string`.  The order of the list is the
order in which a `range` loop happens to visit the map; the theorems hold for
every list, hence for every visiting order. -/
abbrev Header := List (String × List String)

/-- Go `Header.Set(key, value)`: the canonicalised key is bound to the single
value, replacing whatever values it had. -/
def Header.Set (h : Header) (key value : String) : Header :=
  put h (CanonicalMIMEHeaderKey key) [value]

/-- Go `Header.Get(key)`: the first value bound to the canonicalised key, or
the empty string. -/
def Header.Get (h : Header) (key : String) : String :=
  match lookup h (CanonicalMIMEHeaderKey key) with
  | some (v :: _) => v
  | _ => ""

/-- The invariant of the header maps that `net/http` hands to a handler and
that its client returns: every name is in canonical form. -/
def Header.Canonical (h : Header) : Prop :=
  ∀ kv ∈ h, CanonicalMIMEHeaderKey kv.1 = kv.1

instance (h : Header) : Decidable (Header.Canonical h) := by
  unfold Header.Canonical
  exact inferInstance

/-- The inner loop over `values`, calling `h.Set(k, v)` for each value `v`. -/
def setValues (h : Header) (k : String) (values : List String) : Header :=
  values.foldl (fun acc v => acc.Set k v) h

/-- Go `Header.Add(key, value)`: the value is appended to the values of the
canonicalised key. -/
def Header.Add (h : Header) (key value : String) : Header :=
  put h (CanonicalMIMEHeaderKey key)
    ((lookup h (CanonicalMIMEHeaderKey key)).getD [] ++ [value])

/-- The header map `r.Header` that the `net/http` server builds from the field
lines of a request (name and value, in the order received): it starts empty,
adds each line, and in the end removes `Host`, which the server keeps in
`r.Host` instead. -/
def fromFieldLines (lines : List (String × String)) : Header :=
  erase (lines.foldl (fun (h : Header) (kv : String × String) => h.Add kv.1 kv.2) []) "Host"

/-! ## Requests, responses and the environment -/

/-- The fields of a Go `http.Request` that the handlers use: `url` is the value
of `r.URL.String()` (for an inbound request the path and query as received). -/
structure Request where
  method : String
  url : String
  header : Header
deriving DecidableEq

/-- An upstream `http.Response` as the handlers consume it: `body` is the byte
slice that `ioutil.ReadAll(resp.Body)` returns and `readErr` the error it
returns with it, if any. -/
structure Response where
  status : Nat
  header : Header
  body : String
  readErr : Option String
deriving DecidableEq

/-- One `zip.File` of an opened archive.  `openErr` is the error of
`file.Open()`, if any.  `data` is what `io.Copy(dest, rom)` transfers before it
stops and `copyErr` the error it stops with; when `copyErr` is `none` the copy
reached the end of the entry and `data` is the entry's decompressed content. -/
structure ZipFile where
  name : String
  openErr : Option String
  data : String
  copyErr : Option String
deriving DecidableEq

/-- What the standard library and the operating system decide.
* `newRequestErr method url`: the error of `http.NewRequest(method, url, nil)`;
* `queryGet url key`: `URL.Query().Get(key)` for the request URL `url`;
* `roundTrip req`: the result of `httpClient.Do(req)`;
* `writeFileErr path`: the error of `ioutil.WriteFile(path, _, 0644)`;
* `zipOpen bytes`: the result of `zip.OpenReader` on a file holding `bytes`;
* `openFileErr path`: the error of `os.OpenFile(path, O_CREATE|O_RDWR, 0755)`;
* `removeErr path`: the error of `os.Remove(path)` on an existing file. -/
structure Env where
  newRequestErr : String → String → Option String
  queryGet : String → String → String
  roundTrip : Request → Except String Response
  writeFileErr : String → Option String
  zipOpen : String → Except String (List ZipFile)
  openFileErr : String → Option String
  removeErr : String → Option String

/-- The `http.ResponseWriter` of the `net/http` server: the header map of the
reply, the status once the header has been written, the body bytes accepted so
far, the `Content-Length` the handler had declared when the header was written
(`none` for the library's `-1`, not declared), and the number of bytes handed
to `Write` so far, refused ones included. -/
structure ResponseWriter where
  header : Header
  status : Option Nat
  body : String
  contentLength : Option Nat
  written : Nat
deriving DecidableEq

/-- Go `strconv.ParseUint(s, 10, 64)` without the range check: the value of a
non-empty string of decimal digits. -/
def parseDigits (ds : List Char) : Option Nat :=
  if ds.isEmpty || !ds.all Char.isDigit then none
  else some (ds.foldl (fun n c => 10 * n + (c.toNat - 48)) 0)

/-- The test the server applies to a declared `Content-Length`:
`strconv.ParseInt(cl, 10, 64)` succeeds with a value `v >= 0`.  A sign is
allowed, the magnitude must fit an `int64`, and a negative value is refused. -/
def parseContentLength (cl : String) : Option Nat :=
  match cl.data with
  | '+' :: ds =>
    match parseDigits ds with
    | some n => if n < 2 ^ 63 then some n else none
    | none => none
  | '-' :: ds =>
    match parseDigits ds with
    | some 0 => some 0
    | _ => none
  | ds =>
    match parseDigits ds with
    | some n => if n < 2 ^ 63 then some n else none
    | none => none

/-- Go `bodyAllowedForStatus`: no body with a 1xx, 204 or 304 status. -/
def bodyAllowedForStatus (status : Nat) : Bool :=
  !((100 ≤ status && status ≤ 199) || status = 204 || status = 304)

/-- Go `w.WriteHeader(code)` of the server, for a final status code: the first
call fixes the status, later calls are ignored.  The first call also reads the
`Content-Length` the handler has put in the header map: a valid value becomes
the declared length of the body, an invalid one is deleted from the map. -/
def ResponseWriter.WriteHeader (w : ResponseWriter) (code : Nat) : ResponseWriter :=
  match w.status with
  | some _ => w
  | none =>
    let cl := w.header.Get "Content-Length"
    if cl = "" then { w with status := some code }
    else
      match parseContentLength cl with
      | some v => { w with status := some code, contentLength := some v }
      | none => { w with status := some code, header := erase w.header "Content-Length" }

/-- Go `w.Write(b)` of the server: an unwritten header is written with status
200; an empty `b` does nothing more; a status without body refuses the bytes
(`ErrBodyNotAllowed`); otherwise the bytes are counted, and when the count
exceeds the declared `Content-Length` the call returns `ErrContentLength` and
writes nothing; otherwise the bytes are appended to the body. -/
def ResponseWriter.Write (w : ResponseWriter) (b : String) : ResponseWriter :=
  let w := w.WriteHeader 200
  if b.length = 0 then w
  else if !bodyAllowedForStatus (w.status.getD 200) then w
  else
    let w := { w with written := w.written + b.length }
    match w.contentLength with
    | some cl => if w.written > cl then w else { w with body := w.body ++ b }
    | none => { w with body := w.body ++ b }

/-- The files of the file system: path to content. -/
abbrev FS := List (String × String)

/-- Everything a handler run can change: the reply, the files, the lines given
to `log.Printf`, and the requests handed to `httpClient.Do`. -/
structure Sys where
  w : ResponseWriter
  fs : FS
  log : List String
  sent : List Request
deriving DecidableEq

/-- The state in which the server calls a handler: nothing written to the
reply yet, the given files on disk. -/
def Sys.start (fs : FS) : Sys :=
  { w := { header := [], status := none, body := "", contentLength := none, written := 0 },
    fs := fs, log := [], sent := [] }

/-- The value a handler of type `handler` returns (`nil` or an error), or the
panic that ends it. -/
inductive Ret where
  | ok
  | err (msg : String)
  | panic (msg : String)
deriving DecidableEq

/-! ## Constants of the source -/

def baseURL : String := "https://vimm.net"

/-- Source `paths`: where to put the roms based on their extension. -/
def paths : List (String × String) :=
  [("smc", "/home/pi/RetroPie/roms/snes/"), ("sfc", "/home/pi/RetroPie/roms/snes/")]

/-- Source `js`, the fragment appended to vault pages. -/
def js : String :=
  "\n<script>\nwindow.addEventListener(\x27DOMContentLoaded\x27, () => \x7b\n\tconst form = document.querySelector(\x27#download_form\x27);\n\tform.action = \x27/download\x27;\n\x7d);\n</script>\n"

/-! ## GET / -/

/-- The loop of `index` that adds the original request headers, skipping
`Accept-Encoding`. -/
def indexRequestHeader (src : Header) : Header :=
  src.foldl (fun h kv => if kv.1 = "Accept-Encoding" then h else setValues h kv.1 kv.2) []

/-- The loop of `index` that forwards the response headers into `w.Header()`. -/
def forwardHeader (src : Header) (dst : Header) : Header :=
  src.foldl (fun h kv => setValues h kv.1 kv.2) dst

/-- Source `Server.index`. -/
def index (env : Env) (r : Request) (st : Sys) : Sys :=
  let fwdTo := baseURL ++ r.url
  match env.newRequestErr "GET" fwdTo with
  | some _ => { st with w := st.w.WriteHeader 400 }
  | none =>
    let req : Request := { method := "GET", url := fwdTo, header := indexRequestHeader r.header }
    let st := { st with sent := st.sent ++ [req] }
    match env.roundTrip req with
    | .error _ => { st with w := st.w.WriteHeader 500 }
    | .ok resp =>
      let body := resp.body
      let isHTML := decide (resp.header.Get "Content-Type" = "text/html; charset=UTF-8")
      let w := { st.w with header := forwardHeader resp.header st.w.header }
      if HasPrefix r.url "/vault" && isHTML then
        { st with w := w.Write (body ++ js) }
      else
        { st with w := w.Write body }

/-! ## Unzipping -/

/-- The content of a file opened without `O_TRUNC` after `data` has been
written at offset 0: the new bytes, then whatever the old content had beyond
their length (lengths count bytes, one character per byte). -/
def overwrite (old data : String) : String :=
  String.mk (data.data ++ old.data.drop data.data.length)

/-- Go `zip.OpenReader(path)`: the file must exist and parse as an archive. -/
def openReader (env : Env) (fs : FS) (path : String) : Except String (List ZipFile) :=
  match lookup fs path with
  | none => .error ("open " ++ path ++ ": no such file or directory")
  | some bytes => env.zipOpen bytes

/-- The body of the loop of `unzip` for one archive entry, with the route
table passed explicitly. -/
def unzipFile (env : Env) (table : List (String × String)) (file : ZipFile) (st : Sys) :
    Ret × Sys :=
  match getExt file.name with
  | none => (.panic "index out of range", st)
  | some ext =>
    match lookup table ext with
    | none => (.ok, st)
    | some relPath =>
      match file.openErr with
      | some e => (.err e, st)
      | none =>
        let fullPath := relPath ++ file.name
        match env.openFileErr fullPath with
        | some e => (.err e, st)
        | none =>
          let old := (lookup st.fs fullPath).getD ""
          let st := { st with fs := put st.fs fullPath (overwrite old file.data) }
          match file.copyErr with
          | some e => (.err e, st)
          | none => (.ok, { st with log := st.log ++ ["SAVED to: " ++ fullPath] })

/-- The loop `for _, file := range reader.File` of `unzip`: it stops at the
first entry that fails. -/
def unzipFiles (env : Env) (table : List (String × String)) : List ZipFile → Sys → Ret × Sys
  | [], st => (.ok, st)
  | file :: rest, st =>
    match unzipFile env table file st with
    | (.ok, st1) => unzipFiles env table rest st1
    | res => res

/-- Source `unzip`, with the package-level route table as the parameter
`table`. -/
def unzip (env : Env) (table : List (String × String)) (path : String) (st : Sys) :
    Ret × Sys :=
  match openReader env st.fs path with
  | .error e => (.err e, st)
  | .ok files => unzipFiles env table files st

/-! ## GET /download -/

/-- The loop of `download` that adds the original request headers, replacing
the value of `Referer`. -/
def downloadRequestHeader (src : Header) : Header :=
  src.foldl
    (fun h kv =>
      if kv.1 = "Referer" then h.Set "Referer" "https://vimm.net/" else setValues h kv.1 kv.2)
    []

/-- Source `Server.download`. -/
def download (env : Env) (r : Request) (st : Sys) : Ret × Sys :=
  let mediaId := env.queryGet r.url "mediaId"
  let url := "https://download4.vimm.net/download/?mediaId=" ++ mediaId
  match env.newRequestErr "GET" url with
  | some _ => (.ok, st)
  | none =>
    let req : Request := { method := "GET", url := url, header := downloadRequestHeader r.header }
    let st := { st with sent := st.sent ++ [req] }
    match env.roundTrip req with
    | .error e => (.err ("Failed to request content. " ++ e), st)
    | .ok resp =>
      match resp.readErr with
      | some e => (.err ("Failed to read body: " ++ e), st)
      | none =>
        let path := mediaId ++ ".zip"
        match env.writeFileErr path with
        | some e => (.err ("Failed to write zip: " ++ e), st)
        | none =>
          let st := { st with fs := put st.fs path resp.body }
          match unzip env paths path st with
          | (.ok, st) =>
            let st :=
              match lookup st.fs path, env.removeErr path with
              | none, _ =>
                { st with log := st.log ++
                    ["ERROR removing the temp zip file. remove " ++ path ++
                      ": no such file or directory"] }
              | some _, some e =>
                { st with log := st.log ++ ["ERROR removing the temp zip file. " ++ e] }
              | some _, none => { st with fs := erase st.fs path }
            (.ok, { st with w := st.w.Write "Saved" })
          | res => res

/-- Source `withErrorHandling`. -/
def withErrorHandling (fn : Request → Sys → Ret × Sys) (r : Request) (st : Sys) : Ret × Sys :=
  match fn r st with
  | (.err msg, st) =>
    (.ok, { st with log := st.log ++ ["ERROR: " ++ msg ++ "\n"],
                    w := (st.w.WriteHeader 500).Write msg })
  | res => res


/-- The file that the loop of `unzip` writes for an entry: `paths[ext] + name`
when the extension `ext` of the entry is a key of the route table, none
otherwise. -/
def destination (table : List (String × String)) (file : ZipFile) : Option String :=
  match getExt file.name with
  | none => none
  | some ext => (lookup table ext).map (fun relPath => relPath ++ file.name)

/-- The files that the entries of an archive are routed to, in archive order. -/
def destinations (table : List (String × String)) (files : List ZipFile) : List String :=
  files.filterMap (destination table)

/-- The request that `download` builds for the upstream. -/
def downloadRequest (env : Env) (r : Request) : Request :=
  { method := "GET",
    url := "https://download4.vimm.net/download/?mediaId=" ++ env.queryGet r.url "mediaId",
    header := downloadRequestHeader r.header }

/-- The temporary archive of a download run, `mediaId + ".zip"`. -/
def zipPath (env : Env) (r : Request) : String :=
  env.queryGet r.url "mediaId" ++ ".zip"

/-- The state in which `download` starts to extract: the request has been
handed to the transport and the response body saved as the temporary archive. -/
def afterSave (env : Env) (r : Request) (st : Sys) (resp : Response) : Sys :=
  { st with sent := st.sent ++ [downloadRequest env r],
            fs := put st.fs (zipPath env r) resp.body }

/-- The fatal errors of a download run, stage by stage, in the words of the
specification: `DownloadFails env r st msg` says that the run of `download`
on request `r` from state `st` meets a fatal error with message `msg` while
executing the outbound request, reading the body, writing the temporary file,
opening the archive, or extracting an entry. -/
inductive DownloadFails (env : Env) (r : Request) (st : Sys) : String → Prop
  | transport (e : String)
      (hdo : env.roundTrip (downloadRequest env r) = .error e) :
      DownloadFails env r st ("Failed to request content. " ++ e)
  | readBody (resp : Response) (e : String)
      (hdo : env.roundTrip (downloadRequest env r) = .ok resp)
      (hread : resp.readErr = some e) :
      DownloadFails env r st ("Failed to read body: " ++ e)
  | writeZip (resp : Response) (e : String)
      (hdo : env.roundTrip (downloadRequest env r) = .ok resp)
      (hread : resp.readErr = none)
      (hwrite : env.writeFileErr (zipPath env r) = some e) :
      DownloadFails env r st ("Failed to write zip: " ++ e)
  | openArchive (resp : Response) (e : String)
      (hdo : env.roundTrip (downloadRequest env r) = .ok resp)
      (hread : resp.readErr = none)
      (hwrite : env.writeFileErr (zipPath env r) = none)
      (hzip : env.zipOpen resp.body = .error e) :
      DownloadFails env r st e
  | extractEntry (resp : Response) (done : List ZipFile) (file : ZipFile)
      (rest : List ZipFile) (s1 s2 : Sys) (e : String)
      (hdo : env.roundTrip (downloadRequest env r) = .ok resp)
      (hread : resp.readErr = none)
      (hwrite : env.writeFileErr (zipPath env r) = none)
      (hzip : env.zipOpen resp.body = .ok (done ++ file :: rest))
      (hdone : unzipFiles env paths done (afterSave env r st resp) = (.ok, s1))
      (hfile : unzipFile env paths file s1 = (.err e, s2)) :
      DownloadFails env r st e

/-! ## A concrete environment -/

/-- A concrete environment for the worked examples.  Request construction
rejects a URL holding an ASCII control character, one of the reasons for which
`http.NewRequest` fails, and accepts every other URL (the library refuses more,
a bad escape or port for instance; the URLs of the examples are decided as the
library decides them).  The query value of `mediaId` is `mediaId`, the transport answers every request
with `resp`, the zip reader yields `zip`, every write and open of a file is
granted, and removing a file fails with `rmErr` when one is given. -/
def fixture (mediaId : String) (resp : Except String Response)
    (zip : Except String (List ZipFile)) (rmErr : Option String) : Env :=
  { newRequestErr := fun _ url =>
      if url.data.any (fun c => c.toNat < 32 || c.toNat = 127) then
        some "net/url: invalid control character in URL"
      else none,
    queryGet := fun _ key => if key = "mediaId" then mediaId else "",
    roundTrip := fun _ => resp,
    writeFileErr := fun _ => none,
    zipOpen := fun _ => zip,
    openFileErr := fun _ => none,
    removeErr := fun _ => rmErr }

/-- An upstream reply with status 200 and the given header and body. -/
def reply (header : Header) (body : String) : Response :=
  { status := 200, header := header, body := body, readErr := none }

/-- An archive entry that opens and copies without error. -/
def entry (name data : String) : ZipFile :=
  { name := name, openErr := none, data := data, copyErr := none }

/-! ## Maps -/

theorem erase_cons {α : Type} (e : String × α) (m : List (String × α)) (k : String) :
    erase (e :: m) k = if e.1 = k then erase m k else e :: erase m k := by
  by_cases h : e.1 = k <;> simp [erase, List.filter_cons, h]

theorem lookup_cons {α : Type} (e : String × α) (m : List (String × α)) (q : String) :
    lookup (e :: m) q = if e.1 = q then some e.2 else lookup m q := by
  obtain ⟨k1, v1⟩ := e
  rfl

theorem lookup_erase_self {α : Type} (m : List (String × α)) (k : String) :
    lookup (erase m k) k = none := by
  induction m with
  | nil => rfl
  | cons e m ih =>
    rw [erase_cons]
    by_cases h : e.1 = k
    · rw [if_pos h]; exact ih
    · rw [if_neg h, lookup_cons, if_neg h]; exact ih

theorem lookup_erase_ne {α : Type} (m : List (String × α)) {k q : String} (h : q ≠ k) :
    lookup (erase m k) q = lookup m q := by
  induction m with
  | nil => rfl
  | cons e m ih =>
    rw [erase_cons, lookup_cons]
    by_cases h1 : e.1 = k
    · have h2 : ¬ e.1 = q := fun h3 => h (h3 ▸ h1)
      rw [if_pos h1, if_neg h2]; exact ih
    · rw [if_neg h1, lookup_cons, ih]

theorem lookup_put_self {α : Type} (m : List (String × α)) (k : String) (v : α) :
    lookup (put m k v) k = some v := by
  simp [put, lookup]

theorem lookup_put_ne {α : Type} (m : List (String × α)) {k q : String} (v : α) (h : q ≠ k) :
    lookup (put m k v) q = lookup m q := by
  have h2 : ¬ k = q := fun h3 => h h3.symm
  simp [put, lookup, h2, lookup_erase_ne m h]

/-! ## getExt -/

theorem splitChars_ne_nil (sep : Char) (l : List Char) : splitChars sep l ≠ [] := by
  induction l with
  | nil => simp [splitChars]
  | cons c cs ih =>
    unfold splitChars
    split
    · simp
    · split
      · simp
      · simp

/-- A list without separator is a single piece. -/
theorem splitChars_of_not_mem (sep : Char) (l : List Char) (h : sep ∉ l) :
    splitChars sep l = [l] := by
  induction l with
  | nil => rfl
  | cons c cs ih =>
    have hc : ¬ c = sep := fun e => h (by simp [e])
    have hcs : sep ∉ cs := fun e => h (by simp [e])
    simp [splitChars, hc, ih hcs]

/-- A list with a separator has at least two pieces. -/
theorem splitChars_tail_ne_nil (sep : Char) (l : List Char) (h : sep ∈ l) :
    (splitChars sep l).tail ≠ [] := by
  induction l with
  | nil => simp at h
  | cons c cs ih =>
    by_cases hc : c = sep
    · simp [splitChars, hc, splitChars_ne_nil]
    · have hcs : sep ∈ cs := by
        rcases List.mem_cons.1 h with e | e
        · exact absurd e.symm hc
        · exact e
      have := ih hcs
      cases hs : splitChars sep cs with
      | nil => exact absurd hs (splitChars_ne_nil sep cs)
      | cons x xs =>
        rw [hs] at this
        simpa [splitChars, hc, hs] using this

/-- The last piece of a list is the last piece of what follows a separator. -/
theorem splitChars_getLast_append (sep : Char) (p e : List Char) :
    (splitChars sep (p ++ sep :: e)).getLast? = (splitChars sep e).getLast? := by
  induction p with
  | nil =>
    cases hs : splitChars sep e with
    | nil => exact absurd hs (splitChars_ne_nil sep e)
    | cons x xs => simp [splitChars, hs, List.getLast?_cons_cons]
  | cons c p ih =>
    have hmem : sep ∈ p ++ sep :: e := by simp
    have htail := splitChars_tail_ne_nil sep (p ++ sep :: e) hmem
    cases hs : splitChars sep (p ++ sep :: e) with
    | nil => exact absurd hs (splitChars_ne_nil sep _)
    | cons x xs =>
      rw [hs] at ih htail
      cases xs with
      | nil => simp at htail
      | cons y ys =>
        rw [← ih]
        by_cases hc : c = sep
        · simp [splitChars, hc, hs, List.getLast?_cons_cons]
        · simp [splitChars, hc, hs, List.getLast?_cons_cons]

/-- A list holding the separator splits at its final occurrence. -/
theorem exists_final_sep (sep : Char) (l : List Char) (h : sep ∈ l) :
    ∃ p e, l = p ++ sep :: e ∧ sep ∉ e := by
  induction l with
  | nil => simp at h
  | cons c cs ih =>
    by_cases hcs : sep ∈ cs
    · obtain ⟨p, e, hl, he⟩ := ih hcs
      exact ⟨c :: p, e, by rw [hl]; rfl, he⟩
    · rcases List.mem_cons.1 h with e | e
      · exact ⟨[], cs, by rw [e]; rfl, hcs⟩
      · exact absurd e hcs

/-- The last piece holds no separator; it is the whole list when the list
holds none, and otherwise the list ends with a separator followed by it. -/
theorem splitChars_getLast (sep : Char) (l : List Char) :
    ∃ e, (splitChars sep l).getLast? = some e ∧ sep ∉ e ∧
      (sep ∉ l → e = l) ∧ (sep ∈ l → ∃ p, l = p ++ sep :: e) := by
  by_cases h : sep ∈ l
  · obtain ⟨p, e, hl, he⟩ := exists_final_sep sep l h
    refine ⟨e, ?_, he, fun hn => absurd h hn, fun _ => ⟨p, hl⟩⟩
    rw [hl, splitChars_getLast_append, splitChars_of_not_mem sep e he]
    rfl
  · exact ⟨l, by rw [splitChars_of_not_mem sep l h]; rfl, h, fun _ => rfl,
      fun hn => absurd hn h⟩

/-- The index expression of `getExt` is always in range, and what it selects. -/
theorem getExt_last_piece (name : String) :
    ∃ e : String, getExt name = some e ∧ '.' ∉ e.data ∧
      ('.' ∉ name.data → e = name) ∧
      ('.' ∈ name.data → ∃ p : String, name = p ++ "." ++ e) := by
  obtain ⟨e, he, hdot, hno, hyes⟩ := splitChars_getLast '.' name.data
  refine ⟨String.mk e, ?_, hdot, ?_, ?_⟩
  · unfold getExt Split
    simp only
    rw [← List.getLast?_eq_getElem?, List.getLast?_map, he]
    rfl
  · intro h
    rw [hno h]
  · intro h
    obtain ⟨p, hp⟩ := hyes h
    refine ⟨String.mk p, ?_⟩
    apply String.ext
    simp [hp]

/-- C4: for every string `name`, `getExt name` is defined (the index into the
split result is never out of range); its result `e` holds no `.`; when `name`
holds no `.` it is `name` in full, and otherwise `name` is some string, then a
`.`, then `e`, so `e` is the substring after the final `.`. -/
theorem getExt_spec (name : String) :
    ∃ e : String, getExt name = some e ∧ '.' ∉ e.data ∧
      ('.' ∉ name.data → e = name) ∧
      ('.' ∈ name.data → ∃ p : String, name = p ++ "." ++ e) :=
  getExt_last_piece name

/-! ## Canonical header names -/

theorem isLower_toNat_lt (c : Char) (h : c.isLower = true) : c.toNat < 128 := by
  simp only [Char.isLower, Bool.and_eq_true, decide_eq_true_eq] at h
  have h2 := h.2
  rw [UInt32.le_def] at h2
  have h3 : c.val.val.val ≤ 122 := h2
  show c.val.val.val < 128
  omega

theorem isUpper_toNat_lt (c : Char) (h : c.isUpper = true) : c.toNat < 128 := by
  simp only [Char.isUpper, Bool.and_eq_true, decide_eq_true_eq] at h
  have h2 := h.2
  rw [UInt32.le_def] at h2
  have h3 : c.val.val.val ≤ 90 := h2
  show c.val.val.val < 128
  omega

theorem ascii_case_table : ∀ n, n < 128 →
    ((Char.ofNat n).isLower = true →
      (Char.ofNat n).toUpper.isLower = false ∧
        validHeaderFieldByte (Char.ofNat n).toUpper = true) ∧
    ((Char.ofNat n).isUpper = true →
      (Char.ofNat n).toLower.isUpper = false ∧
        validHeaderFieldByte (Char.ofNat n).toLower = true) := by
  decide

theorem toUpper_of_isLower (c : Char) (h : c.isLower = true) :
    c.toUpper.isLower = false ∧ validHeaderFieldByte c.toUpper = true := by
  have := (ascii_case_table c.toNat (isLower_toNat_lt c h)).1
  rw [Char.ofNat_toNat] at this
  exact this h

theorem toLower_of_isUpper (c : Char) (h : c.isUpper = true) :
    c.toLower.isUpper = false ∧ validHeaderFieldByte c.toLower = true := by
  have := (ascii_case_table c.toNat (isUpper_toNat_lt c h)).2
  rw [Char.ofNat_toNat] at this
  exact this h

theorem canonLoop_cons (upper : Bool) (c : Char) (cs : List Char) :
    canonLoop upper (c :: cs) =
      (if upper && c.isLower then c.toUpper
        else if !upper && c.isUpper then c.toLower else c) ::
      canonLoop
        ((if upper && c.isLower then c.toUpper
          else if !upper && c.isUpper then c.toLower else c) == '-') cs := by
  rw [canonLoop]

/-- The capitalisation pass changes nothing in its own output. -/
theorem canonLoop_idem (upper : Bool) (l : List Char) :
    canonLoop upper (canonLoop upper l) = canonLoop upper l := by
  induction l generalizing upper with
  | nil => rfl
  | cons c cs ih =>
    have hfix : ∀ d : Char,
        d = (if upper && c.isLower then c.toUpper
              else if !upper && c.isUpper then c.toLower else c) →
        (if upper && d.isLower then d.toUpper
          else if !upper && d.isUpper then d.toLower else d) = d := by
      intro d hd
      cases upper with
      | true =>
        by_cases hl : c.isLower = true
        · simp only [Bool.true_and, hl, if_true] at hd
          simp [hd, (toUpper_of_isLower c hl).1]
        · simp only [Bool.true_and, hl, Bool.not_true, Bool.false_and] at hd
          simp [hd, hl]
      | false =>
        by_cases hu : c.isUpper = true
        · simp only [Bool.false_and, Bool.not_false, Bool.true_and, hu, if_true] at hd
          simp [hd, (toLower_of_isUpper c hu).1]
        · simp only [Bool.false_and, Bool.not_false, Bool.true_and, hu] at hd
          simp [hd, hu]
    rw [canonLoop_cons upper c cs, canonLoop_cons upper _ (canonLoop _ cs), hfix _ rfl, ih]

/-- The capitalisation pass keeps token characters token characters. -/
theorem canonLoop_valid (upper : Bool) (l : List Char)
    (h : l.all validHeaderFieldByte = true) :
    (canonLoop upper l).all validHeaderFieldByte = true := by
  induction l generalizing upper with
  | nil => rfl
  | cons c cs ih =>
    rw [List.all_cons, Bool.and_eq_true] at h
    rw [canonLoop_cons, List.all_cons, Bool.and_eq_true]
    refine ⟨?_, ih _ h.2⟩
    by_cases h1 : (upper && c.isLower) = true
    · rw [if_pos h1]
      exact (toUpper_of_isLower c (by simp at h1; exact h1.2)).2
    · rw [if_neg h1]
      by_cases h2 : (!upper && c.isUpper) = true
      · rw [if_pos h2]
        exact (toLower_of_isUpper c (by simp at h2; exact h2.2)).2
      · rw [if_neg h2]
        exact h.1

/-- Canonicalising a name twice is canonicalising it once. -/
theorem CanonicalMIMEHeaderKey_idem (s : String) :
    CanonicalMIMEHeaderKey (CanonicalMIMEHeaderKey s) = CanonicalMIMEHeaderKey s := by
  unfold CanonicalMIMEHeaderKey
  by_cases h : s.data.all validHeaderFieldByte = true
  · rw [if_pos h]
    have hv := canonLoop_valid true s.data h
    simp only [hv, if_true, canonLoop_idem]
  · rw [if_neg h, if_neg h]

theorem mem_erase {α : Type} (m : List (String × α)) (k : String) (e : String × α)
    (h : e ∈ erase m k) : e ∈ m :=
  (List.mem_filter.1 h).1

/-- Binding a canonical name keeps a header map canonical. -/
theorem canonical_put (h : Header) (key : String) (values : List String)
    (hh : Header.Canonical h) :
    Header.Canonical (put h (CanonicalMIMEHeaderKey key) values) := by
  intro kv hkv
  rcases List.mem_cons.1 hkv with e | e
  · rw [e]
    exact CanonicalMIMEHeaderKey_idem key
  · exact hh kv (mem_erase h _ kv e)

/-- The header map that `net/http` builds from the field lines of a request
has canonical names, whatever the lines are. -/
theorem fromFieldLines_canonical (lines : List (String × String)) :
    Header.Canonical (fromFieldLines lines) := by
  have hgen : ∀ acc : Header, Header.Canonical acc →
      Header.Canonical
        (lines.foldl (fun (h : Header) (kv : String × String) => h.Add kv.1 kv.2) acc) := by
    induction lines with
    | nil => exact fun acc hacc => hacc
    | cons kv rest ih =>
      intro acc hacc
      rw [List.foldl_cons]
      exact ih _ (canonical_put acc kv.1 _ hacc)
  intro kv hkv
  exact hgen [] (fun kv hkv => by cases hkv) kv (mem_erase _ _ kv hkv)

/-! ## Header loops -/

theorem lookup_eq_none_iff {α : Type} (m : List (String × α)) (k : String) :
    lookup m k = none ↔ ∀ kv ∈ m, kv.1 ≠ k := by
  induction m with
  | nil => simp [lookup]
  | cons e m ih =>
    rw [lookup_cons]
    by_cases h : e.1 = k
    · simp [h]
    · simp [h, ih]

theorem lookup_Set_ne (h : Header) (k v q : String) (hq : q ≠ CanonicalMIMEHeaderKey k) :
    lookup (h.Set k v) q = lookup h q :=
  lookup_put_ne h [v] hq

theorem lookup_Set_self (h : Header) (k v : String) :
    lookup (h.Set k v) (CanonicalMIMEHeaderKey k) = some [v] :=
  lookup_put_self h _ [v]

/-- The inner loop leaves every other name alone. -/
theorem lookup_setValues_ne (h : Header) (k q : String) (values : List String)
    (hq : q ≠ CanonicalMIMEHeaderKey k) :
    lookup (setValues h k values) q = lookup h q := by
  induction values generalizing h with
  | nil => rfl
  | cons v vs ih =>
    show lookup (setValues (h.Set k v) k vs) q = lookup h q
    rw [ih, lookup_Set_ne h k v q hq]

/-- The inner loop binds the name to the last of the values only. -/
theorem lookup_setValues_self (h : Header) (k : String) (values : List String) :
    lookup (setValues h k values) (CanonicalMIMEHeaderKey k) =
      match values.getLast? with
      | some v => some [v]
      | none => lookup h (CanonicalMIMEHeaderKey k) := by
  induction values generalizing h with
  | nil => rfl
  | cons v vs ih =>
    show lookup (setValues (h.Set k v) k vs) _ = _
    rw [ih]
    cases vs with
    | nil => simp [lookup_Set_self]
    | cons v2 vs2 =>
      rw [List.getLast?_cons_cons]
      cases hl : (v2 :: vs2).getLast? with
      | none => simp at hl
      | some x => rfl

theorem indexRequestHeader_fold (src acc : Header) (hcanon : Header.Canonical src)
    (hacc : lookup acc "Accept-Encoding" = none) :
    lookup
      (src.foldl
        (fun h kv => if kv.1 = "Accept-Encoding" then h else setValues h kv.1 kv.2) acc)
      "Accept-Encoding" = none := by
  induction src generalizing acc with
  | nil => exact hacc
  | cons kv src ih =>
    have hsrc : Header.Canonical src := fun x hx => hcanon x (List.mem_cons_of_mem _ hx)
    rw [List.foldl_cons]
    apply ih _ hsrc
    by_cases hk : kv.1 = "Accept-Encoding"
    · rw [if_pos hk]; exact hacc
    · rw [if_neg hk, lookup_setValues_ne]
      · exact hacc
      · rw [hcanon kv (List.mem_cons_self _ _)]
        exact fun e => hk e.symm

/-- The request header that `index` builds never binds `Accept-Encoding`. -/
theorem indexRequestHeader_no_accept_encoding (src : Header) (hcanon : Header.Canonical src) :
    lookup (indexRequestHeader src) "Accept-Encoding" = none :=
  indexRequestHeader_fold src [] hcanon rfl

/-- Whatever field lines an inbound request carries, in whatever case their
names are written, the header that `index` builds from the map `net/http` makes
of them never binds `Accept-Encoding`. -/
theorem indexRequestHeader_fromFieldLines (lines : List (String × String)) :
    lookup (indexRequestHeader (fromFieldLines lines)) "Accept-Encoding" = none :=
  indexRequestHeader_no_accept_encoding _ (fromFieldLines_canonical lines)

/-- The requests that one run of `index` hands to the transport. -/
theorem index_sent (env : Env) (r : Request) (st : Sys) :
    (index env r st).sent =
      match env.newRequestErr "GET" (baseURL ++ r.url) with
      | some _ => st.sent
      | none =>
        st.sent ++ [{ method := "GET", url := baseURL ++ r.url,
                      header := indexRequestHeader r.header }] := by
  unfold index
  simp only
  split
  · rfl
  · split
    · rfl
    · split <;> rfl

theorem canonical_accept_encoding :
    CanonicalMIMEHeaderKey "Accept-Encoding" = "Accept-Encoding" := by decide

/-- C2: for every inbound request handled by `index` (its header names in the
canonical form in which `net/http` delivers them, whatever they are and whatever
their values), every request that `index` hands to the transport has no
`Accept-Encoding` header; and when the outbound request can be built, exactly
one request is handed over. -/
theorem index_outbound_omits_accept_encoding (env : Env) (r : Request) (fs : FS)
    (hcanon : Header.Canonical r.header) :
    (∀ req ∈ (index env r (Sys.start fs)).sent,
        lookup req.header "Accept-Encoding" = none ∧ req.header.Get "Accept-Encoding" = "") ∧
      (env.newRequestErr "GET" (baseURL ++ r.url) = none →
        ∃ req, (index env r (Sys.start fs)).sent = [req]) := by
  rw [index_sent]
  have hno := indexRequestHeader_no_accept_encoding r.header hcanon
  cases hreq : env.newRequestErr "GET" (baseURL ++ r.url) with
  | some e =>
    refine ⟨?_, fun h => by cases h⟩
    intro req hmem
    simp [Sys.start] at hmem
  | none =>
    refine ⟨?_, fun _ => ⟨_, rfl⟩⟩
    intro req hmem
    simp only [Sys.start, List.nil_append, List.mem_singleton] at hmem
    subst hmem
    refine ⟨hno, ?_⟩
    simp only [Header.Get, canonical_accept_encoding]
    rw [hno]

/-! ## The reply writer -/

theorem empty_append (s : String) : "" ++ s = s := by
  apply String.ext
  simp

theorem append_empty (s : String) : s ++ "" = s := by
  apply String.ext
  simp

theorem eq_empty_of_length_eq_zero (b : String) (h : b.length = 0) : b = "" := by
  apply String.ext
  exact List.length_eq_zero.1 h

/-- Writing the header when no `Content-Length` is declared only fixes the
status. -/
theorem WriteHeader_undeclared (w : ResponseWriter) (code : Nat) (hs : w.status = none)
    (hcl : w.header.Get "Content-Length" = "") :
    w.WriteHeader code = { w with status := some code } := by
  unfold ResponseWriter.WriteHeader
  rw [hs]
  simp only [hcl, if_true]

/-- With the header written, a status that allows a body and no declared
length, `Write` appends the bytes. -/
theorem Write_undeclared (w : ResponseWriter) (b : String) (code : Nat)
    (hs : w.status = some code) (hallow : bodyAllowedForStatus code = true)
    (hcl : w.contentLength = none) :
    w.Write b = { w with written := w.written + b.length, body := w.body ++ b } := by
  have hw : w.WriteHeader 200 = w := by
    unfold ResponseWriter.WriteHeader
    rw [hs]
  unfold ResponseWriter.Write
  simp only [hw]
  by_cases hb : b.length = 0
  · rw [if_pos hb, hb, eq_empty_of_length_eq_zero b hb, append_empty, Nat.add_zero]
  · rw [if_neg hb]
    simp only [hs, Option.getD_some, hallow, hcl, Bool.not_true, Bool.false_eq_true, if_false]

/-- With nothing written yet and no `Content-Length` in the header map, the
first `Write` sets status 200 and appends the bytes. -/
theorem Write_first_undeclared (w : ResponseWriter) (b : String) (hs : w.status = none)
    (hlen : w.contentLength = none) (hcl : w.header.Get "Content-Length" = "") :
    (w.Write b).body = w.body ++ b ∧ (w.Write b).status = some 200 := by
  have h1 := WriteHeader_undeclared w 200 hs hcl
  have h2 : ({ w with status := some 200 } : ResponseWriter).WriteHeader 200 =
      { w with status := some 200 } := by
    unfold ResponseWriter.WriteHeader
    rfl
  have hw : w.Write b = ({ w with status := some 200 } : ResponseWriter).Write b := by
    unfold ResponseWriter.Write
    rw [h1, h2]
  have h3 := Write_undeclared ({ w with status := some 200 } : ResponseWriter) b 200 rfl
    (by decide) hlen
  rw [hw, h3]
  exact ⟨rfl, rfl⟩

/-! ## The body written by index -/

theorem forwardHeader_fold (src acc : Header) (k : String) (hcanon : Header.Canonical src)
    (hk : lookup src k = none) :
    lookup
      (src.foldl (fun (h : Header) (kv : String × List String) => setValues h kv.1 kv.2) acc)
      k = lookup acc k := by
  induction src generalizing acc with
  | nil => rfl
  | cons kv src ih =>
    have hsrc : Header.Canonical src := fun x hx => hcanon x (List.mem_cons_of_mem _ hx)
    rw [lookup_cons] at hk
    by_cases hkv : kv.1 = k
    · rw [if_pos hkv] at hk; cases hk
    · rw [if_neg hkv] at hk
      rw [List.foldl_cons, ih _ hsrc hk, lookup_setValues_ne]
      rw [hcanon kv (List.mem_cons_self _ _)]
      exact fun e => hkv e.symm

theorem canonical_content_length :
    CanonicalMIMEHeaderKey "Content-Length" = "Content-Length" := by decide

/-- Where the injection reaches the caller: for every inbound request and
every successful upstream response whose header map (names canonical) has no
`Content-Length`, the body the caller gets is the upstream body followed by
`js` when the request's path (`r.URL.String()`) begins with `/vault` and the
upstream `Content-Type` is exactly `text/html; charset=UTF-8`, and the upstream
body in every other combination. -/
theorem index_body_without_content_length (env : Env) (r : Request) (fs : FS)
    (resp : Response)
    (hreq : env.newRequestErr "GET" (baseURL ++ r.url) = none)
    (hresp : env.roundTrip { method := "GET", url := baseURL ++ r.url,
                             header := indexRequestHeader r.header } = .ok resp)
    (hcanon : Header.Canonical resp.header)
    (hcl : lookup resp.header "Content-Length" = none) :
    (HasPrefix r.url "/vault" = true ∧
        resp.header.Get "Content-Type" = "text/html; charset=UTF-8" →
      (index env r (Sys.start fs)).w.body = resp.body ++ js) ∧
    (¬ (HasPrefix r.url "/vault" = true ∧
        resp.header.Get "Content-Type" = "text/html; charset=UTF-8") →
      (index env r (Sys.start fs)).w.body = resp.body) := by
  have hget : Header.Get (forwardHeader resp.header []) "Content-Length" = "" := by
    have hl : lookup (forwardHeader resp.header []) "Content-Length" = none :=
      forwardHeader_fold resp.header [] "Content-Length" hcanon hcl
    simp only [Header.Get, canonical_content_length]
    rw [hl]
  have hwrite : ∀ b : String,
      (({ (Sys.start fs).w with header := forwardHeader resp.header (Sys.start fs).w.header } :
          ResponseWriter).Write b).body = b := by
    intro b
    have h := (Write_first_undeclared
      ({ (Sys.start fs).w with header := forwardHeader resp.header (Sys.start fs).w.header } :
        ResponseWriter) b rfl rfl hget).1
    rw [h]
    exact empty_append b
  unfold index
  simp only [hreq, hresp]
  constructor
  · rintro ⟨h1, h2⟩
    simp only [h1, h2, decide_True, Bool.and_self, if_true]
    exact hwrite _
  · intro h
    by_cases h1 : HasPrefix r.url "/vault" = true
    · have h2 : ¬ resp.header.Get "Content-Type" = "text/html; charset=UTF-8" :=
        fun h2 => h ⟨h1, h2⟩
      simp only [h1, h2, decide_False, Bool.and_false, Bool.false_eq_true, if_false]
      exact hwrite _
    · simp only [h1, Bool.false_and, Bool.false_eq_true, if_false]
      exact hwrite _

/-! ## Unzipping -/

/-- An entry whose extension is not a key of the route table is skipped: the
loop body returns at once and changes nothing. -/
theorem unzipFile_skip (env : Env) (table : List (String × String)) (file : ZipFile) (st : Sys)
    (h : destination table file = none) (hext : getExt file.name ≠ none) :
    unzipFile env table file st = (.ok, st) := by
  unfold destination at h
  unfold unzipFile
  cases he : getExt file.name with
  | none => exact absurd he hext
  | some ext =>
    rw [he] at h
    simp only at h ⊢
    cases hl : lookup table ext with
    | none => rfl
    | some relPath => rw [hl] at h; cases h

/-- What one successful pass of the loop body does. -/
theorem unzipFile_ok (env : Env) (table : List (String × String)) (file : ZipFile)
    (st st1 : Sys) (h : unzipFile env table file st = (.ok, st1)) :
    (destination table file = none ∧ st1 = st) ∨
    (∃ p, destination table file = some p ∧
      st1 = { st with
              fs := put st.fs p (overwrite ((lookup st.fs p).getD "") file.data),
              log := st.log ++ ["SAVED to: " ++ p] }) := by
  unfold unzipFile at h
  unfold destination
  cases he : getExt file.name with
  | none => rw [he] at h; cases h
  | some ext =>
    rw [he] at h
    simp only at h ⊢
    cases hl : lookup table ext with
    | none =>
      rw [hl] at h
      left
      exact ⟨rfl, by cases h; rfl⟩
    | some relPath =>
      rw [hl] at h
      right
      refine ⟨relPath ++ file.name, rfl, ?_⟩
      simp only at h
      cases ho : file.openErr with
      | some e => rw [ho] at h; cases h
      | none =>
        rw [ho] at h
        simp only at h
        cases hf : env.openFileErr (relPath ++ file.name) with
        | some e => rw [hf] at h; cases h
        | none =>
          rw [hf] at h
          simp only at h
          cases hc : file.copyErr with
          | some e => rw [hc] at h; cases h
          | none =>
            rw [hc] at h
            cases h
            rfl

/-- Writing over a file that is not longer than the new bytes leaves the new
bytes alone. -/
theorem overwrite_of_length_le (old data : String)
    (h : old.data.length ≤ data.data.length) : overwrite old data = data := by
  unfold overwrite
  rw [List.drop_of_length_le h, List.append_nil]

/-- A routed entry whose destination is absent, or present with contents not
longer than the entry, ends up holding exactly the entry's bytes. -/
theorem unzipFile_writes_data (env : Env) (table : List (String × String)) (file : ZipFile)
    (st st1 : Sys) (p : String) (h : unzipFile env table file st = (.ok, st1))
    (hp : destination table file = some p)
    (hlen : ((lookup st.fs p).getD "").data.length ≤ file.data.data.length) :
    lookup st1.fs p = some file.data := by
  rcases unzipFile_ok env table file st st1 h with ⟨hd, _⟩ | ⟨q, hd, hst⟩
  · rw [hd] at hp; cases hp
  · rw [hd] at hp
    cases hp
    rw [hst]
    show lookup (put st.fs p _) p = _
    rw [lookup_put_self, overwrite_of_length_le _ _ hlen]

/-- The loop body touches neither the reply nor the requests sent, whatever
its outcome. -/
theorem unzipFile_w_sent (env : Env) (table : List (String × String)) (file : ZipFile)
    (st : Sys) :
    (unzipFile env table file st).2.w = st.w ∧ (unzipFile env table file st).2.sent = st.sent := by
  unfold unzipFile
  cases getExt file.name with
  | none => exact ⟨rfl, rfl⟩
  | some ext =>
    simp only
    cases lookup table ext with
    | none => exact ⟨rfl, rfl⟩
    | some relPath =>
      simp only
      cases file.openErr with
      | some e => exact ⟨rfl, rfl⟩
      | none =>
        simp only
        cases env.openFileErr (relPath ++ file.name) with
        | some e => exact ⟨rfl, rfl⟩
        | none =>
          simp only
          cases file.copyErr with
          | some e => exact ⟨rfl, rfl⟩
          | none => exact ⟨rfl, rfl⟩

theorem unzipFiles_cons (env : Env) (table : List (String × String)) (file : ZipFile)
    (rest : List ZipFile) (st : Sys) :
    unzipFiles env table (file :: rest) st =
      match unzipFile env table file st with
      | (.ok, st1) => unzipFiles env table rest st1
      | res => res := by
  rw [unzipFiles]

theorem unzipFiles_w_sent (env : Env) (table : List (String × String)) (files : List ZipFile)
    (st : Sys) :
    (unzipFiles env table files st).2.w = st.w ∧
      (unzipFiles env table files st).2.sent = st.sent := by
  induction files generalizing st with
  | nil => exact ⟨rfl, rfl⟩
  | cons file rest ih =>
    rw [unzipFiles_cons]
    have h1 := unzipFile_w_sent env table file st
    rcases hu : unzipFile env table file st with ⟨ret, st1⟩
    rw [hu] at h1
    cases ret with
    | ok =>
      have h2 := ih st1
      exact ⟨h2.1.trans h1.1, h2.2.trans h1.2⟩
    | err e => exact h1
    | panic e => exact h1

/-- What a successful run of the loop does: every routed file exists, every
other path is as before, one line is logged per routed file, in archive order. -/
theorem unzipFiles_ok (env : Env) (table : List (String × String)) (files : List ZipFile)
    (st st1 : Sys) (h : unzipFiles env table files st = (.ok, st1)) :
    (∀ p ∈ destinations table files, lookup st1.fs p ≠ none) ∧
    (∀ p, p ∉ destinations table files → lookup st1.fs p = lookup st.fs p) ∧
    st1.log = st.log ++ (destinations table files).map (fun p => "SAVED to: " ++ p) := by
  induction files generalizing st with
  | nil =>
    cases h
    exact ⟨fun p hp => by simp [destinations] at hp, fun _ _ => rfl, by simp [destinations]⟩
  | cons file rest ih =>
    rw [unzipFiles_cons] at h
    rcases hu : unzipFile env table file st with ⟨ret, st2⟩
    rw [hu] at h
    cases ret with
    | err e => cases h
    | panic e => cases h
    | ok =>
      simp only at h
      obtain ⟨ih1, ih2, ih3⟩ := ih st2 h
      rcases unzipFile_ok env table file st st2 hu with ⟨hd, hst⟩ | ⟨q, hd, hst⟩
      · have hds : destinations table (file :: rest) = destinations table rest := by
          simp [destinations, List.filterMap_cons, hd]
        rw [hds, ← hst]
        exact ⟨ih1, ih2, ih3⟩
      · have hds : destinations table (file :: rest) = q :: destinations table rest := by
          simp [destinations, List.filterMap_cons, hd]
        have hfs : st2.fs = put st.fs q (overwrite ((lookup st.fs q).getD "") file.data) := by
          rw [hst]
        have hlog : st2.log = st.log ++ ["SAVED to: " ++ q] := by rw [hst]
        rw [hds]
        refine ⟨?_, ?_, ?_⟩
        · intro p hp
          by_cases hin : p ∈ destinations table rest
          · exact ih1 p hin
          · rcases List.mem_cons.1 hp with e | e
            · rw [ih2 p hin, hfs, e, lookup_put_self]
              simp
            · exact absurd e hin
        · intro p hp
          have hpq : p ≠ q := fun e => hp (by simp [e])
          have hin : p ∉ destinations table rest := fun e => hp (List.mem_cons_of_mem _ e)
          rw [ih2 p hin, hfs, lookup_put_ne _ _ hpq]
        · rw [ih3, hlog]
          simp

/-- C3: for every archive on which `unzip` succeeds, the files written are
exactly those at `paths[getExt(name)] + name` for the entries whose extension
is a key of the route table: each of them exists afterwards, every other path
of the file system is left as it was, and the log has one `SAVED to` line per
such file, in archive order; an entry whose extension is not a key changes
nothing, in whatever state the loop reaches it. -/
theorem unzip_writes_exactly_routed (env : Env) (table : List (String × String))
    (path : String) (st st1 : Sys) (h : unzip env table path st = (.ok, st1)) :
    ∃ files, openReader env st.fs path = .ok files ∧
      (∀ p ∈ destinations table files, lookup st1.fs p ≠ none) ∧
      (∀ p, p ∉ destinations table files → lookup st1.fs p = lookup st.fs p) ∧
      st1.log = st.log ++ (destinations table files).map (fun p => "SAVED to: " ++ p) ∧
      (∀ file ∈ files, destination table file = none →
        ∀ s, unzipFile env table file s = (.ok, s)) := by
  unfold unzip at h
  cases ho : openReader env st.fs path with
  | error e => rw [ho] at h; cases h
  | ok files =>
    rw [ho] at h
    obtain ⟨h1, h2, h3⟩ := unzipFiles_ok env table files st st1 h
    refine ⟨files, rfl, h1, h2, h3, ?_⟩
    intro file _ hd s
    apply unzipFile_skip env table file s hd
    obtain ⟨e, he, _⟩ := getExt_last_piece file.name
    rw [he]
    simp

/-! ## The download handler -/

theorem unzipFiles_append_err (env : Env) (table : List (String × String))
    (done : List ZipFile) (file : ZipFile) (rest : List ZipFile) (st s1 s2 : Sys) (e : String)
    (hdone : unzipFiles env table done st = (.ok, s1))
    (hfile : unzipFile env table file s1 = (.err e, s2)) :
    unzipFiles env table (done ++ file :: rest) st = (.err e, s2) := by
  induction done generalizing st with
  | nil =>
    cases hdone
    rw [List.nil_append, unzipFiles_cons, hfile]
  | cons d ds ih =>
    rw [unzipFiles_cons] at hdone
    rw [List.cons_append, unzipFiles_cons]
    rcases hu : unzipFile env table d st with ⟨ret, st2⟩
    rw [hu] at hdone
    cases ret with
    | err x => cases hdone
    | panic x => cases hdone
    | ok => exact ih st2 hdone

theorem unzip_w_sent (env : Env) (table : List (String × String)) (path : String) (st : Sys) :
    (unzip env table path st).2.w = st.w ∧ (unzip env table path st).2.sent = st.sent := by
  unfold unzip
  cases openReader env st.fs path with
  | error e => exact ⟨rfl, rfl⟩
  | ok files => exact unzipFiles_w_sent env table files st

theorem openReader_afterSave (env : Env) (r : Request) (st : Sys) (resp : Response) :
    openReader env (afterSave env r st resp).fs (zipPath env r) = env.zipOpen resp.body := by
  simp [openReader, afterSave, lookup_put_self]

/-- A failure to build the outbound request ends `download` with `nil`. -/
theorem download_build_failure (env : Env) (r : Request) (st : Sys) (e : String)
    (h : env.newRequestErr "GET"
      ("https://download4.vimm.net/download/?mediaId=" ++ env.queryGet r.url "mediaId") = some e) :
    download env r st = (.ok, st) := by
  simp only [download, h]

/-- The run of `download` once the request is built, the response read and
the temporary archive written. -/
theorem download_after_save (env : Env) (r : Request) (st : Sys) (resp : Response)
    (hreq : env.newRequestErr "GET" (downloadRequest env r).url = none)
    (hdo : env.roundTrip (downloadRequest env r) = .ok resp)
    (hread : resp.readErr = none)
    (hwrite : env.writeFileErr (zipPath env r) = none) :
    download env r st =
      match unzip env paths (zipPath env r) (afterSave env r st resp) with
      | (.ok, st) =>
        let st :=
          match lookup st.fs (zipPath env r), env.removeErr (zipPath env r) with
          | none, _ =>
            { st with log := st.log ++
                ["ERROR removing the temp zip file. remove " ++ zipPath env r ++
                  ": no such file or directory"] }
          | some _, some e =>
            { st with log := st.log ++ ["ERROR removing the temp zip file. " ++ e] }
          | some _, none => { st with fs := erase st.fs (zipPath env r) }
        (.ok, { st with w := st.w.Write "Saved" })
      | res => res := by
  unfold downloadRequest at hreq hdo
  unfold zipPath at hwrite
  simp only at hreq
  simp only [download, hreq, hdo, hread, hwrite, afterSave, zipPath, downloadRequest]

/-- The outcome of a download run that meets a fatal error: the error is
returned, and nothing has been written to the reply. -/
theorem download_fails (env : Env) (r : Request) (st : Sys) (msg : String)
    (hreq : env.newRequestErr "GET" (downloadRequest env r).url = none)
    (hfail : DownloadFails env r st msg) :
    (download env r st).1 = .err msg ∧ (download env r st).2.w = st.w := by
  cases hfail with
  | transport e hdo =>
    unfold downloadRequest at hreq hdo
    simp only at hreq
    simp only [download, hreq, hdo, and_self]
  | readBody resp e hdo hread =>
    unfold downloadRequest at hreq hdo
    simp only at hreq
    simp only [download, hreq, hdo, hread, and_self]
  | writeZip resp e hdo hread hwrite =>
    unfold downloadRequest at hreq hdo
    unfold zipPath at hwrite
    simp only at hreq
    simp only [download, hreq, hdo, hread, hwrite, and_self]
  | openArchive resp e hdo hread hwrite hzip =>
    rw [download_after_save env r st resp hreq hdo hread hwrite]
    simp only [unzip, openReader_afterSave, hzip]
    exact ⟨trivial, rfl⟩
  | extractEntry resp done file rest s1 s2 e hdo hread hwrite hzip hdone hfile =>
    rw [download_after_save env r st resp hreq hdo hread hwrite]
    have hw := unzipFiles_w_sent env paths (done ++ file :: rest) (afterSave env r st resp)
    simp only [unzip, openReader_afterSave, hzip]
    rw [unzipFiles_append_err env paths done file rest _ s1 s2 _ hdone hfile] at hw ⊢
    exact ⟨rfl, hw.1⟩

/-- C7: for every download run in which a fatal error occurs while executing
the outbound request, reading the body, writing the temporary file, opening the
archive or extracting an entry, `download` returns that error without having
written anything, and the handler wrapped by `withErrorHandling` replies with
status 500 and a body equal to the error message and nothing else, so the
confirmation `Saved` is not written. -/
theorem download_failure_reply (env : Env) (r : Request) (fs : FS) (msg : String)
    (hreq : env.newRequestErr "GET" (downloadRequest env r).url = none)
    (hfail : DownloadFails env r (Sys.start fs) msg) :
    (download env r (Sys.start fs)).1 = .err msg ∧
    (download env r (Sys.start fs)).2.w = (Sys.start fs).w ∧
    (withErrorHandling (download env) r (Sys.start fs)).1 = .ok ∧
    (withErrorHandling (download env) r (Sys.start fs)).2.w =
      { header := [], status := some 500, body := msg, contentLength := none,
        written := msg.length } := by
  obtain ⟨h1, h2⟩ := download_fails env r (Sys.start fs) msg hreq hfail
  refine ⟨h1, h2, ?_, ?_⟩
  · unfold withErrorHandling
    rcases hd : download env r (Sys.start fs) with ⟨ret, st1⟩
    rw [hd] at h1
    simp only at h1
    subst h1
    rfl
  · unfold withErrorHandling
    rcases hd : download env r (Sys.start fs) with ⟨ret, st1⟩
    rw [hd] at h1 h2
    simp only at h1 h2
    subst h1
    simp only [h2]
    have hh : (Sys.start fs).w.WriteHeader 500 =
        { header := [], status := some 500, body := "", contentLength := none, written := 0 } :=
      WriteHeader_undeclared _ 500 rfl rfl
    rw [hh, Write_undeclared _ msg 500 rfl (by decide) rfl]
    simp only [empty_append, Nat.zero_add]

/-- The requests that one run of `download` hands to the transport. -/
theorem download_sent (env : Env) (r : Request) (st : Sys) :
    (download env r st).2.sent =
      match env.newRequestErr "GET" (downloadRequest env r).url with
      | some _ => st.sent
      | none => st.sent ++ [downloadRequest env r] := by
  cases hreq : env.newRequestErr "GET" (downloadRequest env r).url with
  | some e => rw [download_build_failure env r st e hreq]
  | none =>
    simp only
    cases hdo : env.roundTrip (downloadRequest env r) with
    | error e =>
      unfold downloadRequest at hreq hdo
      simp only at hreq
      simp only [download, hreq, hdo, downloadRequest]
    | ok resp =>
      cases hread : resp.readErr with
      | some e =>
        unfold downloadRequest at hreq hdo
        simp only at hreq
        simp only [download, hreq, hdo, hread, downloadRequest]
      | none =>
        cases hwrite : env.writeFileErr (zipPath env r) with
        | some e =>
          unfold downloadRequest at hreq hdo
          unfold zipPath at hwrite
          simp only at hreq
          simp only [download, hreq, hdo, hread, hwrite, downloadRequest]
        | none =>
          rw [download_after_save env r st resp hreq hdo hread hwrite]
          have hw := (unzip_w_sent env paths (zipPath env r) (afterSave env r st resp)).2
          rcases hu : unzip env paths (zipPath env r) (afterSave env r st resp) with ⟨ret, st1⟩
          rw [hu] at hw
          simp only at hw
          cases ret with
          | err x => exact hw
          | panic x => exact hw
          | ok =>
            simp only
            rw [← show (afterSave env r st resp).sent = st.sent ++ [downloadRequest env r] from rfl,
              ← hw]
            split <;> rfl

/-! ## The Referer header of the download request -/

theorem canonical_referer : CanonicalMIMEHeaderKey "Referer" = "Referer" := by decide

theorem downloadRequestHeader_fold (src acc : Header) (hcanon : Header.Canonical src) :
    lookup
      (src.foldl
        (fun (h : Header) (kv : String × List String) =>
          if kv.1 = "Referer" then h.Set "Referer" "https://vimm.net/"
          else setValues h kv.1 kv.2) acc)
      "Referer" =
      match lookup src "Referer" with
      | some _ => some ["https://vimm.net/"]
      | none => lookup acc "Referer" := by
  induction src generalizing acc with
  | nil => rfl
  | cons kv src ih =>
    have hsrc : Header.Canonical src := fun x hx => hcanon x (List.mem_cons_of_mem _ hx)
    rw [List.foldl_cons, lookup_cons]
    by_cases hk : kv.1 = "Referer"
    · simp only [if_pos hk]
      have hself := lookup_Set_self acc "Referer" "https://vimm.net/"
      rw [canonical_referer] at hself
      rw [ih _ hsrc, hself]
      cases lookup src "Referer" <;> rfl
    · simp only [if_neg hk]
      rw [ih _ hsrc, lookup_setValues_ne]
      rw [hcanon kv (List.mem_cons_self _ _)]
      exact fun e => hk e.symm

/-- C5, as amended: for every download request (its header names in the
canonical form in which `net/http` delivers them), the request handed to the
transport has `Referer` equal to `https://vimm.net/` whenever the inbound
request has a `Referer` header, whatever its value; when the inbound request
has no `Referer` header the outbound request has none either.  When the
outbound request can be built, it is the one request handed over. -/
theorem download_outbound_referer (env : Env) (r : Request) (fs : FS)
    (hcanon : Header.Canonical r.header) :
    (∀ req ∈ (download env r (Sys.start fs)).2.sent,
      (lookup r.header "Referer" ≠ none →
        lookup req.header "Referer" = some ["https://vimm.net/"] ∧
        req.header.Get "Referer" = "https://vimm.net/") ∧
      (lookup r.header "Referer" = none →
        lookup req.header "Referer" = none ∧ req.header.Get "Referer" = "")) ∧
    (env.newRequestErr "GET" (downloadRequest env r).url = none →
      (download env r (Sys.start fs)).2.sent = [downloadRequest env r]) := by
  rw [download_sent]
  have hfold := downloadRequestHeader_fold r.header [] hcanon
  cases hreq : env.newRequestErr "GET" (downloadRequest env r).url with
  | some e =>
    refine ⟨?_, fun h => by cases h⟩
    intro req hmem
    simp [Sys.start] at hmem
  | none =>
    refine ⟨?_, fun _ => rfl⟩
    intro req hmem
    simp only [Sys.start, List.nil_append, List.mem_singleton] at hmem
    subst hmem
    constructor
    · intro hpresent
      have hl : lookup (downloadRequest env r).header "Referer" = some ["https://vimm.net/"] := by
        show lookup (downloadRequestHeader r.header) "Referer" = _
        unfold downloadRequestHeader
        rw [hfold]
        cases hl : lookup r.header "Referer" with
        | none => exact absurd hl hpresent
        | some vs => rfl
      refine ⟨hl, ?_⟩
      simp only [Header.Get, canonical_referer]
      rw [hl]
    · intro habsent
      have hl : lookup (downloadRequest env r).header "Referer" = none := by
        show lookup (downloadRequestHeader r.header) "Referer" = _
        unfold downloadRequestHeader
        rw [hfold, habsent]
        rfl
      refine ⟨hl, ?_⟩
      simp only [Header.Get, canonical_referer]
      rw [hl]

/-! ## Removal of the temporary archive -/

/-- C8, as amended: for every identifier, after a download run that succeeds
(`download` returns no error and replies `Saved`) and in which the removal of
the temporary archive is not refused, the temporary file `<identifier>.zip` no
longer exists. -/
theorem download_removes_zip (env : Env) (r : Request) (fs : FS)
    (hok : (download env r (Sys.start fs)).1 = .ok)
    (hsaved : (download env r (Sys.start fs)).2.w.body = "Saved")
    (hrm : env.removeErr (zipPath env r) = none) :
    lookup (download env r (Sys.start fs)).2.fs (zipPath env r) = none := by
  cases hreq : env.newRequestErr "GET" (downloadRequest env r).url with
  | some e =>
    rw [download_build_failure env r _ e hreq] at hsaved
    have hempty : ("" : String) = "Saved" := hsaved
    exact absurd hempty (by decide)
  | none =>
    cases hdo : env.roundTrip (downloadRequest env r) with
    | error e =>
      have h := (download_fails env r (Sys.start fs) _ hreq (.transport e hdo)).1
      rw [hok] at h
      cases h
    | ok resp =>
      cases hread : resp.readErr with
      | some e =>
        have h := (download_fails env r (Sys.start fs) _ hreq (.readBody resp e hdo hread)).1
        rw [hok] at h
        cases h
      | none =>
        cases hwrite : env.writeFileErr (zipPath env r) with
        | some e =>
          have h :=
            (download_fails env r (Sys.start fs) _ hreq (.writeZip resp e hdo hread hwrite)).1
          rw [hok] at h
          cases h
        | none =>
          rw [download_after_save env r _ resp hreq hdo hread hwrite] at hok ⊢
          rcases hu : unzip env paths (zipPath env r) (afterSave env r (Sys.start fs) resp)
            with ⟨ret, st1⟩
          rw [hu] at hok
          cases ret with
          | err x => cases hok
          | panic x => cases hok
          | ok =>
            simp only [hrm]
            cases hl : lookup st1.fs (zipPath env r) with
            | none => exact hl
            | some c => exact lookup_erase_self st1.fs (zipPath env r)

/-! ## Worked examples -/

set_option maxRecDepth 20000 in
/-- C1, failing input: `GET /vault/1` answered by the upstream with
`Content-Type: text/html; charset=UTF-8`, `Content-Length: 13` and the 13 bytes
`<html></html>`.  `index` forwards the `Content-Length` and then writes the
body followed by `js`, 173 bytes; the writer refuses them, and the caller gets
status 200 with an empty body, not the page followed by the fragment.  The same
reply to `GET /other`, where nothing is appended, arrives whole. -/
theorem index_injection_refused :
    (index
      (fixture ""
        (.ok (reply [("Content-Type", ["text/html; charset=UTF-8"]), ("Content-Length", ["13"])]
          "<html></html>"))
        (.ok []) none)
      { method := "GET", url := "/vault/1", header := [] } (Sys.start [])).w =
      { header := [("Content-Length", ["13"]), ("Content-Type", ["text/html; charset=UTF-8"])],
        status := some 200, body := "", contentLength := some 13, written := 173 } ∧
    (index
      (fixture ""
        (.ok (reply [("Content-Type", ["text/html; charset=UTF-8"]), ("Content-Length", ["13"])]
          "<html></html>"))
        (.ok []) none)
      { method := "GET", url := "/other", header := [] } (Sys.start [])).w.body =
      "<html></html>" := by
  decide

/-- A request carrying `Accept-Encoding` and `User-Agent` goes upstream with
`User-Agent` only. -/
theorem index_outbound_omits_accept_encoding_witness :
    Header.Canonical [("Accept-Encoding", ["gzip, deflate"]), ("User-Agent", ["curl"])] ∧
    (lookup [("User-Agent", ["curl"])] "Accept-Encoding" = none ∧
      Header.Get [("User-Agent", ["curl"])] "Accept-Encoding" = "") :=
  ⟨by decide,
    (index_outbound_omits_accept_encoding (fixture "" (.ok (reply [] "")) (.ok []) none)
      { method := "GET", url := "/",
        header := [("Accept-Encoding", ["gzip, deflate"]), ("User-Agent", ["curl"])] } []
      (by decide)).1
      { method := "GET", url := "https://vimm.net/", header := [("User-Agent", ["curl"])] }
      (by decide)⟩

/-- The archive of the specification: entries `a.smc`, `b.sfc`, `c.txt` and
`noext` with the table `smc ↦ dirA/`, `sfc ↦ dirB/`. -/
theorem unzip_writes_exactly_routed_witness :
    unzip
      (fixture "1" (.ok (reply [] "PK"))
        (.ok [entry "a.smc" "A", entry "b.sfc" "B", entry "c.txt" "C", entry "noext" "N"]) none)
      [("smc", "dirA/"), ("sfc", "dirB/")] "1.zip" (Sys.start [("1.zip", "PK")]) =
      (.ok,
        { w := { header := [], status := none, body := "", contentLength := none, written := 0 },
          fs := [("dirB/b.sfc", "B"), ("dirA/a.smc", "A"), ("1.zip", "PK")],
          log := ["SAVED to: dirA/a.smc", "SAVED to: dirB/b.sfc"], sent := [] }) ∧
    ∃ files,
      openReader
        (fixture "1" (.ok (reply [] "PK"))
          (.ok [entry "a.smc" "A", entry "b.sfc" "B", entry "c.txt" "C", entry "noext" "N"]) none)
        [("1.zip", "PK")] "1.zip" = .ok files ∧
      (∀ p ∈ destinations [("smc", "dirA/"), ("sfc", "dirB/")] files,
        lookup [("dirB/b.sfc", "B"), ("dirA/a.smc", "A"), ("1.zip", "PK")] p ≠ none) ∧
      (∀ p, p ∉ destinations [("smc", "dirA/"), ("sfc", "dirB/")] files →
        lookup [("dirB/b.sfc", "B"), ("dirA/a.smc", "A"), ("1.zip", "PK")] p =
          lookup [("1.zip", "PK")] p) ∧
      ["SAVED to: dirA/a.smc", "SAVED to: dirB/b.sfc"] =
        [] ++ (destinations [("smc", "dirA/"), ("sfc", "dirB/")] files).map
          (fun p => "SAVED to: " ++ p) ∧
      (∀ file ∈ files, destination [("smc", "dirA/"), ("sfc", "dirB/")] file = none →
        ∀ s,
          unzipFile
            (fixture "1" (.ok (reply [] "PK"))
              (.ok [entry "a.smc" "A", entry "b.sfc" "B", entry "c.txt" "C", entry "noext" "N"])
              none)
            [("smc", "dirA/"), ("sfc", "dirB/")] file s = (.ok, s)) :=
  ⟨by decide,
    unzip_writes_exactly_routed
      (fixture "1" (.ok (reply [] "PK"))
        (.ok [entry "a.smc" "A", entry "b.sfc" "B", entry "c.txt" "C", entry "noext" "N"]) none)
      [("smc", "dirA/"), ("sfc", "dirB/")] "1.zip" (Sys.start [("1.zip", "PK")])
      { w := { header := [], status := none, body := "", contentLength := none, written := 0 },
        fs := [("dirB/b.sfc", "B"), ("dirA/a.smc", "A"), ("1.zip", "PK")],
        log := ["SAVED to: dirA/a.smc", "SAVED to: dirB/b.sfc"], sent := [] }
      (by decide)⟩

/-- C5, counterexample: an inbound request without a `Referer` header yields
an outbound request without one, so its `Referer` is not `https://vimm.net/`. -/
theorem download_referer_absent_counterexample :
    (download (fixture "1" (.ok (reply [] "PK")) (.ok []) none)
      { method := "GET", url := "/download?mediaId=1", header := [("User-Agent", ["curl"])] }
      (Sys.start [])).2.sent =
      [{ method := "GET", url := "https://download4.vimm.net/download/?mediaId=1",
         header := [("User-Agent", ["curl"])] }] ∧
    Header.Get [("User-Agent", ["curl"])] "Referer" ≠ "https://vimm.net/" := by
  decide

/-- An inbound `Referer` is replaced, the other headers are copied. -/
theorem download_outbound_referer_witness :
    (download (fixture "1" (.ok (reply [] "PK")) (.ok []) none)
      { method := "GET", url := "/download?mediaId=1",
        header := [("Referer", ["http://localhost:3000/vault/1"]), ("User-Agent", ["curl"])] }
      (Sys.start [])).2.sent =
      [downloadRequest (fixture "1" (.ok (reply [] "PK")) (.ok []) none)
        { method := "GET", url := "/download?mediaId=1",
          header := [("Referer", ["http://localhost:3000/vault/1"]), ("User-Agent", ["curl"])] }] :=
  (download_outbound_referer (fixture "1" (.ok (reply [] "PK")) (.ok []) none)
    { method := "GET", url := "/download?mediaId=1",
      header := [("Referer", ["http://localhost:3000/vault/1"]), ("User-Agent", ["curl"])] } []
    (by decide)).2 (by decide)

/-- C6, failing input: the destination already holds nine bytes and the entry
has three; after a successful `unzip` the file holds the three new bytes
followed by the last six old ones, not the entry's bytes alone. -/
theorem unzip_keeps_old_tail :
    (unzip (fixture "1" (.ok (reply [] "PK")) (.ok [entry "a.smc" "NEW"]) none) paths "1.zip"
      (Sys.start [("1.zip", "PK"), ("/home/pi/RetroPie/roms/snes/a.smc", "OLDOLDOLD")])).1 = .ok ∧
    lookup
      (unzip (fixture "1" (.ok (reply [] "PK")) (.ok [entry "a.smc" "NEW"]) none) paths "1.zip"
        (Sys.start [("1.zip", "PK"), ("/home/pi/RetroPie/roms/snes/a.smc", "OLDOLDOLD")])).2.fs
      "/home/pi/RetroPie/roms/snes/a.smc" = some "NEWOLDOLD" := by
  decide

/-- The scenario of the specification: identifier `999999`, an upstream 200
whose body is an HTML page, not an archive. -/
theorem download_failure_reply_witness :
    (withErrorHandling
      (download (fixture "999999" (.ok (reply [] "<html>Not found</html>"))
        (.error "zip: not a valid zip file") none))
      { method := "GET", url := "/download?mediaId=999999", header := [] }
      (Sys.start [])).2.w =
      { header := [], status := some 500, body := "zip: not a valid zip file",
        contentLength := none, written := 25 } :=
  (download_failure_reply
    (fixture "999999" (.ok (reply [] "<html>Not found</html>"))
      (.error "zip: not a valid zip file") none)
    { method := "GET", url := "/download?mediaId=999999", header := [] } []
    "zip: not a valid zip file" (by decide)
    (.openArchive (reply [] "<html>Not found</html>") "zip: not a valid zip file"
      rfl rfl rfl rfl)).2.2.2

/-- C8, counterexample: the run succeeds and replies `Saved`, the removal of
the temporary archive is refused, and `7.zip` is still there. -/
theorem download_zip_remains_counterexample :
    (download
      (fixture "7" (.ok (reply [] "PK")) (.ok [entry "a.smc" "A"])
        (some "remove 7.zip: permission denied"))
      { method := "GET", url := "/download?mediaId=7", header := [] } (Sys.start [])).1 = .ok ∧
    (download
      (fixture "7" (.ok (reply [] "PK")) (.ok [entry "a.smc" "A"])
        (some "remove 7.zip: permission denied"))
      { method := "GET", url := "/download?mediaId=7", header := [] } (Sys.start [])).2.w.body =
      "Saved" ∧
    lookup
      (download
        (fixture "7" (.ok (reply [] "PK")) (.ok [entry "a.smc" "A"])
          (some "remove 7.zip: permission denied"))
        { method := "GET", url := "/download?mediaId=7", header := [] } (Sys.start [])).2.fs
      "7.zip" = some "PK" := by
  decide

/-- A successful run whose removal is granted leaves no `7.zip`. -/
theorem download_removes_zip_witness :
    lookup
      (download (fixture "7" (.ok (reply [] "PK")) (.ok [entry "a.smc" "A"]) none)
        { method := "GET", url := "/download?mediaId=7", header := [] } (Sys.start [])).2.fs
      "7.zip" = none :=
  download_removes_zip (fixture "7" (.ok (reply [] "PK")) (.ok [entry "a.smc" "A"]) none)
    { method := "GET", url := "/download?mediaId=7", header := [] } []
    (by decide) (by decide) (by decide)

/-- C9, failing input: an upstream reply with two `Set-Cookie` values reaches
the caller with the second value only. -/
theorem index_drops_header_values :
    (index (fixture "" (.ok (reply [("Set-Cookie", ["a=1", "b=2"])] "ok")) (.ok []) none)
      { method := "GET", url := "/", header := [] } (Sys.start [])).w.header =
      [("Set-Cookie", ["b=2"])] := by
  decide

/-- C10, failing input: the identifier is a line feed
(`/download?mediaId=%0A`), the outbound request cannot be built, `download`
returns `nil`, and the wrapped handler writes neither a status nor a body. -/
theorem download_build_failure_silent :
    withErrorHandling (download (fixture "\n" (.ok (reply [] "PK")) (.ok []) none))
      { method := "GET", url := "/download?mediaId=%0A", header := [] } (Sys.start []) =
      (.ok, Sys.start []) := by
  decide

end Interceptor
